import Mathlib

/-!
# Verification of `backup_tool.py` (backup-integrity-checker)

A shallow embedding of the incremental backup tool: the content
fingerprinter (`calculate_file_hash`), the manifest store
(`load_manifest` / `save_manifest`), the backup engine
(`scan_and_backup`, whose per-file loop body is `stepFile`) and the
integrity verifier (`verify_backup_integrity`).

Modelling conventions:
* A byte is a `Nat` (values `< 256` in any real file); file content is a
  `List Nat`.
* A path is a list of components (`List String`); `os.path.join` is list
  append, `os.path.relpath f root` is the relative component list, and
  `os.path.basename` is the last component.
* A directory tree is an association list from relative path to content;
  Python `dict` (the manifest, keys unique) is likewise an association
  list with replace-or-append update, which agrees with `dict` whenever
  keys are unique.
* A source file that cannot be opened/read (per-file I/O error) is
  `Except.error ()`; `calculate_file_hash` raising is modelled by the
  loop body returning an `ioErr` result that short-circuits the run, and
  `save_manifest` then never executes.
* The external `hashlib` collaborator is modelled by a full executable
  SHA-256 (`sha256hex`), with the incremental accumulator state being
  the byte sequence fed so far (`update` is append, `hexdigest` hashes
  the accumulated bytes) — observably the semantics of
  `hashlib.sha256()`.
* The external `json` collaborator (`json.load` / `json.dump`) is a pair
  of parameters `loads : String → Option Manifest` (with `none` playing
  `JSONDecodeError`) and `dumps : Manifest → String`, per the spec's
  `StructuredStore` capability interface.
-/

set_option linter.unusedVariables false
set_option maxRecDepth 8192

namespace BackupTool

/-! ## SHA-256 (model of the `hashlib` collaborator) -/

/-- Truncate to a 32-bit word. -/
def w32 (n : Nat) : Nat := n % 4294967296

/-- Rotate a 32-bit word right by `n` bits. -/
def rotr32 (n x : Nat) : Nat := w32 ((x >>> n) ||| (x <<< (32 - n)))

/-- The big Sigma-0 mixing function of the compression round. -/
def bigS0 (x : Nat) : Nat := rotr32 2 x ^^^ rotr32 13 x ^^^ rotr32 22 x

/-- The big Sigma-1 mixing function of the compression round. -/
def bigS1 (x : Nat) : Nat := rotr32 6 x ^^^ rotr32 11 x ^^^ rotr32 25 x

/-- The small sigma-0 function of the message schedule. -/
def smS0 (x : Nat) : Nat := rotr32 7 x ^^^ rotr32 18 x ^^^ (x >>> 3)

/-- The small sigma-1 function of the message schedule. -/
def smS1 (x : Nat) : Nat := rotr32 17 x ^^^ rotr32 19 x ^^^ (x >>> 10)

/-- The choose function on 32-bit words (complement via xor with all ones). -/
def chArith (x y z : Nat) : Nat := (x &&& y) ^^^ ((4294967295 ^^^ w32 x) &&& z)

/-- The majority function on 32-bit words. -/
def majArith (x y z : Nat) : Nat := (x &&& y) ^^^ (x &&& z) ^^^ (y &&& z)

/-- The 64 round constants of SHA-256 (FIPS 180-4), written in decimal. -/
def K256 : List Nat :=
  [1116352408, 1899447441, 3049323471, 3921009573,
   961987163, 1508970993, 2453635748, 2870763221,
   3624381080, 310598401, 607225278, 1426881987,
   1925078388, 2162078206, 2614888103, 3248222580,
   3835390401, 4022224774, 264347078, 604807628,
   770255983, 1249150122, 1555081692, 1996064986,
   2554220882, 2821834349, 2952996808, 3210313671,
   3336571891, 3584528711, 113926993, 338241895,
   666307205, 773529912, 1294757372, 1396182291,
   1695183700, 1986661051, 2177026350, 2456956037,
   2730485921, 2820302411, 3259730800, 3345764771,
   3516065817, 3600352804, 4094571909, 275423344,
   430227734, 506948616, 659060556, 883997877,
   958139571, 1322822218, 1537002063, 1747873779,
   1955562222, 2024104815, 2227730452, 2361852424,
   2428436474, 2756734187, 3204031479, 3329325298]

/-- Working state: the eight 32-bit hash words. -/
structure Hash8 where
  a : Nat
  b : Nat
  c : Nat
  d : Nat
  e : Nat
  f : Nat
  g : Nat
  h : Nat
deriving Repr, DecidableEq

/-- The initial hash value of SHA-256 (FIPS 180-4), written in decimal. -/
def H0 : Hash8 :=
  ⟨1779033703, 3144134277, 1013904242, 2773480762, 1359893119, 2600822924, 528734635, 1541459225⟩

/-- Pack big-endian groups of four bytes into 32-bit words. -/
def toWords : List Nat → List Nat
  | b0 :: b1 :: b2 :: b3 :: rest =>
      (((b0 % 256) <<< 24) ||| ((b1 % 256) <<< 16) ||| ((b2 % 256) <<< 8) ||| (b3 % 256)) :: toWords rest
  | _ => []

/-- Extend the 16 block words by `n` message-schedule words. -/
def extendW (ws : List Nat) : Nat → List Nat
  | 0 => ws
  | n + 1 =>
      let i := ws.length
      let w := w32 (smS1 (ws.getD (i - 2) 0) + ws.getD (i - 7) 0 +
                    smS0 (ws.getD (i - 15) 0) + ws.getD (i - 16) 0)
      extendW (ws ++ [w]) n

/-- One compression round. -/
def roundStep (st : Hash8) (kw : Nat × Nat) : Hash8 :=
  let t1 := w32 (st.h + bigS1 st.e + chArith st.e st.f st.g + kw.1 + kw.2)
  let t2 := w32 (bigS0 st.a + majArith st.a st.b st.c)
  ⟨w32 (t1 + t2), st.a, st.b, st.c, w32 (st.d + t1), st.e, st.f, st.g⟩

/-- Compress one 64-byte block into the running hash state. -/
def compress (st : Hash8) (block : List Nat) : Hash8 :=
  let ws := extendW (toWords block) 48
  let r := (K256.zip ws).foldl roundStep st
  ⟨w32 (st.a + r.a), w32 (st.b + r.b), w32 (st.c + r.c), w32 (st.d + r.d),
   w32 (st.e + r.e), w32 (st.f + r.f), w32 (st.g + r.g), w32 (st.h + r.h)⟩

/-- The 8-byte big-endian encoding of the message bit length. -/
def lenBytes64 (n : Nat) : List Nat :=
  [(n >>> 56) % 256, (n >>> 48) % 256, (n >>> 40) % 256, (n >>> 32) % 256,
   (n >>> 24) % 256, (n >>> 16) % 256, (n >>> 8) % 256, n % 256]

/-- SHA-256 padding: `0x80`, zeros to 56 mod 64, then the 64-bit bit length. -/
def padMessage (msg : List Nat) : List Nat :=
  msg ++ [128] ++ List.replicate ((119 - msg.length % 64) % 64) 0 ++ lenBytes64 (8 * msg.length)

/-- Split into 64-byte blocks; structural recursion on a fuel bound that
dominates the number of blocks, so the kernel can evaluate it. -/
def toBlocksF : Nat → List Nat → List (List Nat)
  | 0, _ => []
  | fuel + 1, l => if l = [] then [] else l.take 64 :: toBlocksF fuel (l.drop 64)

/-- Split a padded message into 64-byte blocks. -/
def toBlocks (l : List Nat) : List (List Nat) := toBlocksF (l.length + 1) l

/-- Big-endian bytes of a 32-bit word. -/
def wordBytes (w : Nat) : List Nat :=
  [(w >>> 24) % 256, (w >>> 16) % 256, (w >>> 8) % 256, w % 256]

/-- The 32-byte SHA-256 digest of a byte sequence. -/
def sha256bytes (msg : List Nat) : List Nat :=
  let st := (toBlocks (padMessage msg)).foldl compress H0
  wordBytes st.a ++ wordBytes st.b ++ wordBytes st.c ++ wordBytes st.d ++
  wordBytes st.e ++ wordBytes st.f ++ wordBytes st.g ++ wordBytes st.h

/-- Lowercase hex digit. -/
def hexChar (n : Nat) : Char := if n < 10 then Char.ofNat (48 + n) else Char.ofNat (87 + n)

/-- Two lowercase hex characters of one byte. -/
def byteHex (b : Nat) : List Char := [hexChar (b / 16), hexChar (b % 16)]

/-- Concatenate the hex rendering of each byte. -/
def hexRender : List Nat → List Char
  | [] => []
  | b :: rest => byteHex b ++ hexRender rest

/-- `hashlib.sha256(msg).hexdigest()`: the digest as a lowercase hex string. -/
def sha256hex (msg : List Nat) : String := String.mk (hexRender (sha256bytes msg))

/-! ## `calculate_file_hash` (lines 11–24): chunked streaming -/

/-- The `while True` read loop of `calculate_file_hash`, structurally
recursive on a fuel bound that dominates the number of reads (each
non-final read consumes at least one byte): `f.read(chunk_size)` returns
the next `chunk_size` bytes; an empty read breaks the loop. `acc` is the
byte sequence fed to the incremental accumulator so far. -/
def feedChunksF (chunkSize : Nat) : Nat → List Nat → List Nat → List Nat
  | 0, _, acc => acc
  | fuel + 1, data, acc =>
    let chunk := data.take chunkSize
    if chunk = [] then acc
    else feedChunksF chunkSize fuel (data.drop chunkSize) (acc ++ chunk)

/-- The read loop started with enough fuel for the whole file. -/
def feedChunks (chunkSize : Nat) (data acc : List Nat) : List Nat :=
  feedChunksF chunkSize (data.length + 1) data acc

/-- `calculate_file_hash(file_path, chunk_size)` on the file's byte content:
stream the content in `chunk_size` chunks into the accumulator, then return
the hex digest. -/
def calculate_file_hash (data : List Nat) (chunkSize : Nat) : String :=
  sha256hex (feedChunks chunkSize data [])

/-! ## Paths, trees and association lists -/

/-- A path relative to a root, as a list of components
(`os.path.relpath`); `os.path.basename` is the last component. -/
abbrev RelPath := List String

/-- `MANIFEST_FILE_NAME = "manifest.json"` (line 9). -/
def MANIFEST_FILE_NAME : String := "manifest.json"

/-- A source file as seen through `open`/`read`: either its byte content,
or a per-file I/O error (unreadable, vanished mid-scan). -/
abbrev SrcFile := Except Unit (List Nat)

/-- First-match lookup in an association list (Python `dict.get` when keys
are unique). -/
def lookupA {α β : Type} [DecidableEq α] : List (α × β) → α → Option β
  | [], _ => none
  | (k2, v2) :: rest, k => if k2 = k then some v2 else lookupA rest k

/-- Replace-in-place-or-append update (Python `d[k] = v` when keys are
unique). -/
def insertA {α β : Type} [DecidableEq α] : List (α × β) → α → β → List (α × β)
  | [], k, v => [(k, v)]
  | (k2, v2) :: rest, k, v => if k2 = k then (k, v) :: rest else (k2, v2) :: insertA rest k v

/-- The keys of an association list. -/
def keysOf {α β : Type} (l : List (α × β)) : List α := l.map Prod.fst

/-! ## Manifest store (lines 26–51) -/

/-- One manifest entry: the three recorded fields written at lines 114–118. -/
structure ManifestEntry where
  hash : String
  last_backup_time : String
  backup_path : RelPath
deriving Repr, DecidableEq

/-- The manifest: a `dict` from relative path to entry. -/
abbrev Manifest := List (RelPath × ManifestEntry)

/-- Python `str.isspace` on the characters removed by `str.strip()`. -/
def isPySpace (ch : Char) : Bool :=
  ch == ' ' || ch == '\t' || ch == '\n' || ch == '\r' || ch == '\x0b' || ch == '\x0c'

/-- Python `content.strip()`: remove leading and trailing whitespace. -/
def strip (s : String) : String :=
  String.mk (((s.data.dropWhile isPySpace).reverse.dropWhile isPySpace).reverse)

/-- `load_manifest(manifest_path)` (lines 26–44). The file is `none` when
`os.path.exists` is false, else `some content`. `loads` is the external
`json.load`, returning `none` on `JSONDecodeError`. Result: the manifest
and whether the corruption warning was printed (line 43). -/
def load_manifest (mfile : Option String) (loads : String → Option Manifest) :
    Manifest × Bool :=
  match mfile with
  | none => ([], false)
  | some content =>
    if strip content = "" then ([], false)
    else
      match loads content with
      | none => ([], true)
      | some m => (m, false)

/-- `save_manifest(manifest_path, manifest_data)` (lines 46–51): the new
content of the manifest file, a whole-document overwrite of `dumps` applied
to the full mapping. -/
def save_manifest (dumps : Manifest → String) (manifest_data : Manifest) : Option String :=
  some (dumps manifest_data)

/-! ## Backup engine (lines 60–126) -/

/-- `backup_file(source_file, source_root, backup_root)` (lines 60–72) on
the backup tree: `shutil.copy2` the content to `backup_root/rel_path`
(creating parent directories, implicit in the flat tree model) and return
the updated tree together with the returned `backup_file_path`. -/
def backup_file (broot : List String) (bfs : List (RelPath × List Nat))
    (rel : RelPath) (content : List Nat) : List (RelPath × List Nat) × RelPath :=
  (insertA bfs rel content, broot ++ rel)

/-- The mutable state of the `scan_and_backup` loop: the working manifest
copy, the backup tree, the two counters, and — as observables of the run —
the `[BACKUP]`/`[SKIP]` log lines and the files passed to
`calculate_file_hash`. -/
structure BackupState where
  updated : Manifest
  backupFS : List (RelPath × List Nat)
  backed_up_files : Nat
  skipped_files : Nat
  copied : List RelPath
  skippedList : List RelPath
  hashed : List RelPath
deriving Repr, DecidableEq

/-- Result of the loop: normal completion, or a propagating per-file I/O
exception (raised by `calculate_file_hash`), carrying the state at that
point. -/
inductive LoopResult where
  | ok (st : BackupState)
  | ioErr (st : BackupState)
deriving Repr, DecidableEq

/-- The copy decision of line 111:
`previous_entry is None or previous_entry["hash"] != file_hash or not backup_exists`. -/
def needsCopy (previous_entry : Option ManifestEntry) (file_hash : String)
    (backup_exists : Bool) : Bool :=
  match previous_entry with
  | none => true
  | some e => (e.hash != file_hash) || !backup_exists

/-- The body of the `for file_name in files` loop (lines 95–124), for one
source file `f` given by its relative path and readability: skip the
reserved manifest name (lines 98–100), fingerprint (line 102, raising on
I/O error), look up the entry in the *loaded* manifest and test existence
in the *current* backup tree (lines 105–109), then copy or skip. -/
def stepFile (manifest : Manifest) (broot : List String) (now : String)
    (st : BackupState) (f : RelPath × SrcFile) : LoopResult :=
  if f.1.getLastD "" = MANIFEST_FILE_NAME then .ok st
  else
    match f.2 with
    | .error _ => .ioErr { st with hashed := st.hashed ++ [f.1] }
    | .ok content =>
      let file_hash := calculate_file_hash content 4096
      let previous_entry := lookupA manifest f.1
      let backup_exists := (lookupA st.backupFS f.1).isSome
      let st1 := { st with hashed := st.hashed ++ [f.1] }
      if needsCopy previous_entry file_hash backup_exists then
        let copyRes := backup_file broot st1.backupFS f.1 content
        .ok { st1 with
              backupFS := copyRes.1,
              updated := insertA st1.updated f.1 ⟨file_hash, now, copyRes.2⟩,
              backed_up_files := st1.backed_up_files + 1,
              copied := st1.copied ++ [f.1] }
      else
        .ok { st1 with
              skipped_files := st1.skipped_files + 1,
              skippedList := st1.skippedList ++ [f.1] }

/-- The `os.walk` loop (lines 94–124): process the enumerated source files
in order; an exception short-circuits the rest of the run. -/
def runLoop (manifest : Manifest) (broot : List String) (now : String) :
    BackupState → List (RelPath × SrcFile) → LoopResult
  | st, [] => .ok st
  | st, f :: rest =>
    match stepFile manifest broot now st f with
    | .ok st2 => runLoop manifest broot now st2 rest
    | .ioErr st2 => .ioErr st2

/-- The loop run from the initial state of lines 86–90:
`updated_manifest = manifest.copy()`, counters zero. -/
def runBackup (manifest : Manifest) (broot : List String) (now : String)
    (bfs0 : List (RelPath × List Nat)) (src : List (RelPath × SrcFile)) : LoopResult :=
  runLoop manifest broot now ⟨manifest, bfs0, 0, 0, [], [], []⟩ src

/-- The observable outcome of `scan_and_backup`: the manifest file after
the run, the backup tree, the in-memory updated manifest, the summary
counters, the log lines, and whether an exception propagated. -/
structure RunOutcome where
  mfileOut : Option String
  backupFS : List (RelPath × List Nat)
  updated : Manifest
  backed_up_files : Nat
  skipped_files : Nat
  copied : List RelPath
  skippedList : List RelPath
  hashed : List RelPath
  raised : Bool
deriving Repr, DecidableEq

/-- `scan_and_backup(source_dir, backup_dir, manifest_path)` (lines
74–135): load the manifest, run the walk loop, and on normal completion
persist the updated manifest (line 126). On a propagating exception the
manifest file keeps its prior content (`save_manifest` is never reached),
while copies made earlier in the run remain in the backup tree. -/
def scan_and_backup (loads : String → Option Manifest) (dumps : Manifest → String)
    (src : List (RelPath × SrcFile)) (broot : List String)
    (bfs0 : List (RelPath × List Nat)) (mfile : Option String) (now : String) :
    RunOutcome :=
  let manifest := (load_manifest mfile loads).1
  match runBackup manifest broot now bfs0 src with
  | .ok st =>
      ⟨save_manifest dumps st.updated, st.backupFS, st.updated,
       st.backed_up_files, st.skipped_files, st.copied, st.skippedList, st.hashed, false⟩
  | .ioErr st =>
      ⟨mfile, st.backupFS, st.updated,
       st.backed_up_files, st.skipped_files, st.copied, st.skippedList, st.hashed, true⟩

/-! ## Integrity verifier (lines 137–180) -/

/-- The verify report: `total_files`, the `missing_files` and `mismatches`
lists in manifest order, and whether the "No Manifest Found" terminal
state was taken (lines 144–146). -/
structure Report where
  total_files : Nat
  missing_files : List RelPath
  mismatches : List RelPath
  noManifest : Bool
deriving Repr, DecidableEq

/-- The `for rel_path, meta in manifest.items()` loop (lines 152–162):
classify each entry as missing (no file at `backup_dir/rel_path`, the
`continue` skipping the hash) or mismatched (digest differs from
`meta["hash"]`), returning the two lists in order. -/
def verifyLoop (bfs : List (RelPath × List Nat)) :
    List (RelPath × ManifestEntry) → List RelPath × List RelPath
  | [] => ([], [])
  | (rel, meta) :: rest =>
    match lookupA bfs rel with
    | none =>
        let r := verifyLoop bfs rest
        (rel :: r.1, r.2)
    | some content =>
        if calculate_file_hash content 4096 ≠ meta.hash then
          let r := verifyLoop bfs rest
          (r.1, rel :: r.2)
        else verifyLoop bfs rest

/-- `verify_backup_integrity(source_dir, backup_dir, manifest_path)`
(lines 137–180): load the manifest; empty means "No Manifest Found";
otherwise walk the manifest (the source tree is never consulted — the
joined `soruce_file_path` of line 153 is unused) and report. -/
def verify_backup_integrity (source : List (RelPath × SrcFile))
    (bfs : List (RelPath × List Nat)) (mfile : Option String)
    (loads : String → Option Manifest) : Report :=
  let manifest := (load_manifest mfile loads).1
  if manifest.isEmpty then ⟨0, [], [], true⟩
  else
    let r := verifyLoop bfs manifest
    ⟨manifest.length, r.1, r.2, false⟩

/-! ## Readability of a source file -/

/-- Whether `open`/`read` succeeds on the file. -/
def isReadable : SrcFile → Bool
  | .ok _ => true
  | .error _ => false

/-- The state carried by either loop result. -/
def stateOf : LoopResult → BackupState
  | .ok st => st
  | .ioErr st => st

/-! ## Association-list lemmas -/

theorem lookupA_insertA_self {α β : Type} [DecidableEq α] (l : List (α × β)) (k : α) (v : β) :
    lookupA (insertA l k v) k = some v := by
  induction l with
  | nil => simp [insertA, lookupA]
  | cons p rest ih =>
    by_cases h : p.1 = k
    · simp [insertA, h, lookupA]
    · simp only [insertA]
      rw [if_neg h]
      simp only [lookupA]
      rw [if_neg h]
      exact ih

theorem lookupA_insertA_ne {α β : Type} [DecidableEq α] (l : List (α × β)) (k k2 : α) (v : β)
    (h : k2 ≠ k) : lookupA (insertA l k v) k2 = lookupA l k2 := by
  induction l with
  | nil => simp [insertA, lookupA, Ne.symm h]
  | cons p rest ih =>
    by_cases hp : p.1 = k
    · simp only [insertA]
      rw [if_pos hp]
      simp only [lookupA]
      rw [if_neg (Ne.symm h), if_neg (hp ▸ Ne.symm h)]
    · simp only [insertA]
      rw [if_neg hp]
      simp only [lookupA]
      by_cases hk2 : p.1 = k2
      · rw [if_pos hk2, if_pos hk2]
      · rw [if_neg hk2, if_neg hk2]
        exact ih

theorem lookupA_eq_of_mem_nodup {α β : Type} [DecidableEq α] {l : List (α × β)} {k : α} {v : β}
    (hmem : (k, v) ∈ l) (hnd : (keysOf l).Nodup) : lookupA l k = some v := by
  induction l with
  | nil => simp at hmem
  | cons p rest ih =>
    simp only [keysOf, List.map_cons, List.nodup_cons] at hnd
    rcases List.mem_cons.mp hmem with h | h
    · subst h
      simp [lookupA]
    · have hk : p.1 ≠ k := by
        intro he
        exact hnd.1 (he ▸ (List.mem_map.mpr ⟨(k, v), h, rfl⟩))
      simp only [lookupA]
      rw [if_neg hk]
      exact ih h hnd.2

theorem mem_unique_of_nodup {α β : Type} {l : List (α × β)} {k : α} {v w : β}
    (h1 : (k, v) ∈ l) (h2 : (k, w) ∈ l) (hnd : (keysOf l).Nodup) : v = w := by
  induction l with
  | nil => simp at h1
  | cons p rest ih =>
    simp only [keysOf, List.map_cons, List.nodup_cons] at hnd
    rcases List.mem_cons.mp h1 with ha | ha <;> rcases List.mem_cons.mp h2 with hb | hb
    · simpa using ha.trans hb.symm
    · exact absurd (List.mem_map.mpr ⟨(k, w), hb, by rw [← ha]⟩) hnd.1
    · exact absurd (List.mem_map.mpr ⟨(k, v), ha, by rw [← hb]⟩) hnd.1
    · exact ih ha hb hnd.2

/-! ## The copy decision -/

theorem needsCopy_eq_true_iff (p : Option ManifestEntry) (h : String) (b : Bool) :
    needsCopy p h b = true ↔
      p = none ∨ (∃ e, p = some e ∧ e.hash ≠ h) ∨ b = false := by
  cases p with
  | none => simp [needsCopy]
  | some e =>
    cases b <;> simp [needsCopy, bne_iff_ne]

theorem needsCopy_eq_false_iff (p : Option ManifestEntry) (h : String) (b : Bool) :
    needsCopy p h b = false ↔ ∃ e, p = some e ∧ e.hash = h ∧ b = true := by
  cases p with
  | none => simp [needsCopy]
  | some e =>
    cases b <;> simp [needsCopy, bne_iff_ne]

/-! ## Per-step characterization -/

theorem stepFile_manifest_name (manifest : Manifest) (broot : List String) (now : String)
    (st : BackupState) (f : RelPath × SrcFile) (h : f.1.getLastD "" = MANIFEST_FILE_NAME) :
    stepFile manifest broot now st f = .ok st := by
  simp only [stepFile]
  rw [if_pos h]

theorem stepFile_error (manifest : Manifest) (broot : List String) (now : String)
    (st : BackupState) (rel : RelPath) (e : Unit)
    (h : rel.getLastD "" ≠ MANIFEST_FILE_NAME) :
    stepFile manifest broot now st (rel, .error e) =
      .ioErr { st with hashed := st.hashed ++ [rel] } := by
  simp only [stepFile]
  rw [if_neg h]

theorem stepFile_copy (manifest : Manifest) (broot : List String) (now : String)
    (st : BackupState) (rel : RelPath) (c : List Nat)
    (hname : rel.getLastD "" ≠ MANIFEST_FILE_NAME)
    (hcond : needsCopy (lookupA manifest rel) (calculate_file_hash c 4096)
      (lookupA st.backupFS rel).isSome = true) :
    stepFile manifest broot now st (rel, .ok c) = .ok
      { updated := insertA st.updated rel
          ⟨calculate_file_hash c 4096, now, broot ++ rel⟩,
        backupFS := insertA st.backupFS rel c,
        backed_up_files := st.backed_up_files + 1,
        skipped_files := st.skipped_files,
        copied := st.copied ++ [rel],
        skippedList := st.skippedList,
        hashed := st.hashed ++ [rel] } := by
  simp only [stepFile, backup_file]
  rw [if_neg hname]
  simp [hcond]

theorem stepFile_skip (manifest : Manifest) (broot : List String) (now : String)
    (st : BackupState) (rel : RelPath) (c : List Nat)
    (hname : rel.getLastD "" ≠ MANIFEST_FILE_NAME)
    (hcond : needsCopy (lookupA manifest rel) (calculate_file_hash c 4096)
      (lookupA st.backupFS rel).isSome = false) :
    stepFile manifest broot now st (rel, .ok c) = .ok
      { st with
        skipped_files := st.skipped_files + 1,
        skippedList := st.skippedList ++ [rel],
        hashed := st.hashed ++ [rel] } := by
  simp only [stepFile]
  rw [if_neg hname]
  simp [hcond]

/-! ## Frame lemmas: a step only touches its own key -/

/-- Observable agreement of two loop states at one relative path. -/
def AgreesAt (k : RelPath) (st1 st2 : BackupState) : Prop :=
  lookupA st1.updated k = lookupA st2.updated k ∧
  lookupA st1.backupFS k = lookupA st2.backupFS k ∧
  (k ∈ st1.copied ↔ k ∈ st2.copied) ∧
  (k ∈ st1.skippedList ↔ k ∈ st2.skippedList)

theorem agreesAt_refl (k : RelPath) (st : BackupState) : AgreesAt k st st :=
  ⟨rfl, rfl, Iff.rfl, Iff.rfl⟩

theorem agreesAt_trans {k : RelPath} {st1 st2 st3 : BackupState}
    (h1 : AgreesAt k st1 st2) (h2 : AgreesAt k st2 st3) : AgreesAt k st1 st3 :=
  ⟨h1.1.trans h2.1, h1.2.1.trans h2.2.1, h1.2.2.1.trans h2.2.2.1, h1.2.2.2.trans h2.2.2.2⟩

theorem stepFile_agreesAt (manifest : Manifest) (broot : List String) (now : String)
    (st : BackupState) (f : RelPath × SrcFile) (k : RelPath) (hk : k ≠ f.1) :
    AgreesAt k st (stateOf (stepFile manifest broot now st f)) := by
  by_cases hname : f.1.getLastD "" = MANIFEST_FILE_NAME
  · rw [stepFile_manifest_name manifest broot now st f hname]
    exact agreesAt_refl k st
  · obtain ⟨f1, f2⟩ := f
    cases f2 with
    | error e =>
      rw [stepFile_error manifest broot now st f1 e hname]
      exact agreesAt_refl k _
    | ok c =>
      rcases hb : needsCopy (lookupA manifest f1) (calculate_file_hash c 4096)
        (lookupA st.backupFS f1).isSome with _ | _
      · rw [stepFile_skip manifest broot now st f1 c hname hb]
        refine ⟨rfl, rfl, Iff.rfl, ?_⟩
        simp [stateOf, List.mem_append, hk]
      · rw [stepFile_copy manifest broot now st f1 c hname hb]
        refine ⟨?_, ?_, ?_, Iff.rfl⟩
        · exact (lookupA_insertA_ne st.updated f1 k _ hk).symm
        · exact (lookupA_insertA_ne st.backupFS f1 k c hk).symm
        · simp [stateOf, List.mem_append, hk]

theorem runLoop_agreesAt (manifest : Manifest) (broot : List String) (now : String)
    (l : List (RelPath × SrcFile)) (st : BackupState) (k : RelPath)
    (hk : k ∉ keysOf l) :
    AgreesAt k st (stateOf (runLoop manifest broot now st l)) := by
  induction l generalizing st with
  | nil => exact agreesAt_refl k st
  | cons f rest ih =>
    simp only [keysOf, List.map_cons, List.mem_cons, not_or] at hk
    have hstep := stepFile_agreesAt manifest broot now st f k hk.1
    rw [runLoop]
    cases hres : stepFile manifest broot now st f with
    | ok st2 =>
      rw [hres] at hstep
      exact agreesAt_trans hstep (ih st2 (by simpa [keysOf] using hk.2))
    | ioErr st2 =>
      rw [hres] at hstep
      exact hstep

/-! ## Totality and error propagation of the loop -/

theorem stepFile_ok (manifest : Manifest) (broot : List String) (now : String)
    (st : BackupState) (f : RelPath × SrcFile) (hr : isReadable f.2 = true) :
    ∃ st2, stepFile manifest broot now st f = .ok st2 := by
  by_cases hname : f.1.getLastD "" = MANIFEST_FILE_NAME
  · exact ⟨st, stepFile_manifest_name manifest broot now st f hname⟩
  · obtain ⟨f1, f2⟩ := f
    cases f2 with
    | error e => simp [isReadable] at hr
    | ok c =>
      rcases hb : needsCopy (lookupA manifest f1) (calculate_file_hash c 4096)
        (lookupA st.backupFS f1).isSome with _ | _
      · exact ⟨_, stepFile_skip manifest broot now st f1 c hname hb⟩
      · exact ⟨_, stepFile_copy manifest broot now st f1 c hname hb⟩

theorem runLoop_ok (manifest : Manifest) (broot : List String) (now : String)
    (l : List (RelPath × SrcFile)) (st : BackupState)
    (hr : ∀ f ∈ l, isReadable f.2 = true) :
    ∃ st2, runLoop manifest broot now st l = .ok st2 := by
  induction l generalizing st with
  | nil => exact ⟨st, rfl⟩
  | cons f rest ih =>
    obtain ⟨st2, hst2⟩ := stepFile_ok manifest broot now st f (hr f (by simp))
    obtain ⟨st3, hst3⟩ := ih st2 (fun g hg => hr g (by simp [hg]))
    exact ⟨st3, by rw [runLoop, hst2]; exact hst3⟩

theorem runLoop_ioErr (manifest : Manifest) (broot : List String) (now : String)
    (l : List (RelPath × SrcFile)) (st : BackupState)
    (herr : ∃ f ∈ l, f.2 = Except.error () ∧ f.1.getLastD "" ≠ MANIFEST_FILE_NAME) :
    ∃ st2, runLoop manifest broot now st l = .ioErr st2 := by
  induction l generalizing st with
  | nil => simp at herr
  | cons g rest ih =>
    obtain ⟨f, hf, hfe, hfn⟩ := herr
    by_cases hname : g.1.getLastD "" = MANIFEST_FILE_NAME
    · have hg : f ∈ rest := by
        rcases List.mem_cons.mp hf with h | h
        · exact absurd (h ▸ hname) hfn
        · exact h
      obtain ⟨st2, hst2⟩ := ih st ⟨f, hg, hfe, hfn⟩
      exact ⟨st2, by rw [runLoop, stepFile_manifest_name manifest broot now st g hname]; exact hst2⟩
    · obtain ⟨g1, g2⟩ := g
      cases g2 with
      | error e =>
        exact ⟨_, by rw [runLoop, stepFile_error manifest broot now st g1 e hname]⟩
      | ok c =>
        have hg : f ∈ rest := by
          rcases List.mem_cons.mp hf with h | h
          · rw [h] at hfe; simp at hfe
          · exact h
        obtain ⟨st2, hst2⟩ := stepFile_ok manifest broot now st (g1, .ok c) rfl
        obtain ⟨st3, hst3⟩ := ih st2 ⟨f, hg, hfe, hfn⟩
        exact ⟨st3, by rw [runLoop, hst2]; exact hst3⟩

/-! ## Loop bookkeeping invariants -/

theorem stepFile_counts (manifest : Manifest) (broot : List String) (now : String)
    (st : BackupState) (f : RelPath × SrcFile)
    (h : st.backed_up_files = st.copied.length ∧ st.skipped_files = st.skippedList.length) :
    (stateOf (stepFile manifest broot now st f)).backed_up_files =
      (stateOf (stepFile manifest broot now st f)).copied.length ∧
    (stateOf (stepFile manifest broot now st f)).skipped_files =
      (stateOf (stepFile manifest broot now st f)).skippedList.length := by
  by_cases hname : f.1.getLastD "" = MANIFEST_FILE_NAME
  · rw [stepFile_manifest_name manifest broot now st f hname]; exact h
  · obtain ⟨f1, f2⟩ := f
    cases f2 with
    | error e =>
      rw [stepFile_error manifest broot now st f1 e hname]; exact h
    | ok c =>
      rcases hb : needsCopy (lookupA manifest f1) (calculate_file_hash c 4096)
        (lookupA st.backupFS f1).isSome with _ | _
      · rw [stepFile_skip manifest broot now st f1 c hname hb]
        simpa [stateOf] using h
      · rw [stepFile_copy manifest broot now st f1 c hname hb]
        simpa [stateOf] using h

theorem runLoop_counts (manifest : Manifest) (broot : List String) (now : String)
    (l : List (RelPath × SrcFile)) (st : BackupState)
    (h : st.backed_up_files = st.copied.length ∧ st.skipped_files = st.skippedList.length) :
    (stateOf (runLoop manifest broot now st l)).backed_up_files =
      (stateOf (runLoop manifest broot now st l)).copied.length ∧
    (stateOf (runLoop manifest broot now st l)).skipped_files =
      (stateOf (runLoop manifest broot now st l)).skippedList.length := by
  induction l generalizing st with
  | nil => exact h
  | cons f rest ih =>
    have hstep := stepFile_counts manifest broot now st f h
    rw [runLoop]
    cases hres : stepFile manifest broot now st f with
    | ok st2 =>
      rw [hres] at hstep
      exact ih st2 hstep
    | ioErr st2 =>
      rw [hres] at hstep
      exact hstep

/-- Membership in the run's copy/skip logs implies coming from a walked,
non-reserved-named file. -/
theorem runLoop_mem_logs (manifest : Manifest) (broot : List String) (now : String)
    (l : List (RelPath × SrcFile)) (st : BackupState) (k : RelPath) :
    ((k ∈ (stateOf (runLoop manifest broot now st l)).copied →
        k ∈ st.copied ∨ ∃ p ∈ l, p.1 = k ∧ p.1.getLastD "" ≠ MANIFEST_FILE_NAME) ∧
     (k ∈ (stateOf (runLoop manifest broot now st l)).skippedList →
        k ∈ st.skippedList ∨ ∃ p ∈ l, p.1 = k ∧ p.1.getLastD "" ≠ MANIFEST_FILE_NAME)) := by
  induction l generalizing st with
  | nil => exact ⟨fun h => Or.inl h, fun h => Or.inl h⟩
  | cons f rest ih =>
    have hstep : ((stateOf (stepFile manifest broot now st f)).copied = st.copied ∨
        ((stateOf (stepFile manifest broot now st f)).copied = st.copied ++ [f.1] ∧
          f.1.getLastD "" ≠ MANIFEST_FILE_NAME)) ∧
        ((stateOf (stepFile manifest broot now st f)).skippedList = st.skippedList ∨
        ((stateOf (stepFile manifest broot now st f)).skippedList = st.skippedList ++ [f.1] ∧
          f.1.getLastD "" ≠ MANIFEST_FILE_NAME)) := by
      by_cases hname : f.1.getLastD "" = MANIFEST_FILE_NAME
      · rw [stepFile_manifest_name manifest broot now st f hname]
        exact ⟨Or.inl rfl, Or.inl rfl⟩
      · obtain ⟨f1, f2⟩ := f
        cases f2 with
        | error e =>
          rw [stepFile_error manifest broot now st f1 e hname]
          exact ⟨Or.inl rfl, Or.inl rfl⟩
        | ok c =>
          rcases hb : needsCopy (lookupA manifest f1) (calculate_file_hash c 4096)
            (lookupA st.backupFS f1).isSome with _ | _
          · rw [stepFile_skip manifest broot now st f1 c hname hb]
            exact ⟨Or.inl rfl, Or.inr ⟨rfl, hname⟩⟩
          · rw [stepFile_copy manifest broot now st f1 c hname hb]
            exact ⟨Or.inr ⟨rfl, hname⟩, Or.inl rfl⟩
    rw [runLoop]
    cases hres : stepFile manifest broot now st f with
    | ok st2 =>
      rw [hres] at hstep
      simp only [stateOf] at hstep
      constructor
      · intro hmem
        rcases (ih st2).1 hmem with hin | ⟨p, hp, hpk, hpn⟩
        · rcases hstep.1 with he | ⟨he, hn⟩
          · rw [he] at hin; exact Or.inl hin
          · rw [he] at hin
            rcases List.mem_append.mp hin with h2 | h2
            · exact Or.inl h2
            · simp only [List.mem_singleton] at h2
              exact Or.inr ⟨f, by simp, h2.symm, hn⟩
        · exact Or.inr ⟨p, by simp [hp], hpk, hpn⟩
      · intro hmem
        rcases (ih st2).2 hmem with hin | ⟨p, hp, hpk, hpn⟩
        · rcases hstep.2 with he | ⟨he, hn⟩
          · rw [he] at hin; exact Or.inl hin
          · rw [he] at hin
            rcases List.mem_append.mp hin with h2 | h2
            · exact Or.inl h2
            · simp only [List.mem_singleton] at h2
              exact Or.inr ⟨f, by simp, h2.symm, hn⟩
        · exact Or.inr ⟨p, by simp [hp], hpk, hpn⟩
    | ioErr st2 =>
      rw [hres] at hstep
      simp only [stateOf] at hstep
      constructor
      · intro hmem
        simp only [stateOf] at hmem
        rcases hstep.1 with he | ⟨he, hn⟩
        · rw [he] at hmem; exact Or.inl hmem
        · rw [he] at hmem
          rcases List.mem_append.mp hmem with h2 | h2
          · exact Or.inl h2
          · simp only [List.mem_singleton] at h2
            exact Or.inr ⟨f, by simp, h2.symm, hn⟩
      · intro hmem
        simp only [stateOf] at hmem
        rcases hstep.2 with he | ⟨he, hn⟩
        · rw [he] at hmem; exact Or.inl hmem
        · rw [he] at hmem
          rcases List.mem_append.mp hmem with h2 | h2
          · exact Or.inl h2
          · simp only [List.mem_singleton] at h2
            exact Or.inr ⟨f, by simp, h2.symm, hn⟩

/-- Splitting the walk. -/
theorem runLoop_append (manifest : Manifest) (broot : List String) (now : String)
    (l1 l2 : List (RelPath × SrcFile)) (st : BackupState) :
    runLoop manifest broot now st (l1 ++ l2) =
      match runLoop manifest broot now st l1 with
      | .ok st2 => runLoop manifest broot now st2 l2
      | .ioErr st2 => .ioErr st2 := by
  induction l1 generalizing st with
  | nil => rw [List.nil_append, runLoop]
  | cons f rest ih =>
    rw [List.cons_append, runLoop, runLoop]
    cases stepFile manifest broot now st f with
    | ok st2 => exact ih st2
    | ioErr st2 => rfl

theorem runLoop_cons (manifest : Manifest) (broot : List String) (now : String)
    (st : BackupState) (f : RelPath × SrcFile) (rest : List (RelPath × SrcFile)) :
    runLoop manifest broot now st (f :: rest) =
      match stepFile manifest broot now st f with
      | .ok st2 => runLoop manifest broot now st2 rest
      | .ioErr st2 => .ioErr st2 := rfl

theorem runLoop_append_ok (manifest : Manifest) (broot : List String) (now : String)
    (l1 l2 : List (RelPath × SrcFile)) (st st2 : BackupState)
    (h : runLoop manifest broot now st l1 = .ok st2) :
    runLoop manifest broot now st (l1 ++ l2) = runLoop manifest broot now st2 l2 := by
  rw [runLoop_append, h]

/-! ## Chunking lemmas -/

theorem feedChunksF_eq_append (cs : Nat) (hcs : 0 < cs) :
    ∀ (fuel : Nat) (data acc : List Nat), data.length < fuel →
      feedChunksF cs fuel data acc = acc ++ data := by
  intro fuel
  induction fuel with
  | zero =>
    intro data acc hlen
    omega
  | succ n ih =>
    intro data acc hlen
    show (if data.take cs = [] then acc
      else feedChunksF cs n (data.drop cs) (acc ++ data.take cs)) = acc ++ data
    by_cases h : data.take cs = []
    · have hd : data = [] := by
        cases data with
        | nil => rfl
        | cons a rest =>
          cases cs with
          | zero => omega
          | succ m => simp [List.take_succ_cons] at h
      subst hd
      simp [h]
    · have hne : data ≠ [] := by
        intro hd; apply h; simp [hd]
      have hlen2 : (data.drop cs).length < n := by
        have h1 : 0 < data.length := List.length_pos.mpr hne
        simp only [List.length_drop]
        omega
      rw [if_neg h, ih (data.drop cs) (acc ++ data.take cs) hlen2]
      rw [List.append_assoc, List.take_append_drop]

theorem calculate_file_hash_eq_sha256hex (data : List Nat) (cs : Nat) (hcs : 0 < cs) :
    calculate_file_hash data cs = sha256hex data := by
  rw [calculate_file_hash, feedChunks,
    feedChunksF_eq_append cs hcs (data.length + 1) data [] (Nat.lt_succ_self _)]
  rw [List.nil_append]

theorem hexRender_length (l : List Nat) : (hexRender l).length = 2 * l.length := by
  induction l with
  | nil => rfl
  | cons b rest ih =>
    simp only [hexRender, byteHex, List.length_append, List.length_cons, ih, List.length_nil]
    omega

theorem sha256bytes_length (msg : List Nat) : (sha256bytes msg).length = 32 := by
  simp [sha256bytes, wordBytes]

theorem sha256hex_length (msg : List Nat) : (sha256hex msg).length = 64 := by
  have h : (sha256hex msg).length = (hexRender (sha256bytes msg)).length := rfl
  rw [h, hexRender_length, sha256bytes_length]

/-! ## The per-file behaviour of a full run -/

/-- For a readable, non-reserved-named source file at `rel`, a completed
backup run copies it exactly when the line-111 condition fires (looked up
in the loaded manifest and the initial backup tree), records the new entry
on copy, retains the loaded entry on skip, and leaves a backup copy
present either way. -/
theorem runBackup_per_file (M : Manifest) (broot : List String) (now : String)
    (bfs0 : List (RelPath × List Nat)) (src : List (RelPath × SrcFile))
    (rel : RelPath) (c : List Nat)
    (hnd : (keysOf src).Nodup)
    (hok : ∀ f ∈ src, isReadable f.2 = true)
    (hmem : (rel, Except.ok c) ∈ src)
    (hname : rel.getLastD "" ≠ MANIFEST_FILE_NAME) :
    ∃ stf, runBackup M broot now bfs0 src = .ok stf ∧
      (rel ∈ stf.copied ↔
        needsCopy (lookupA M rel) (calculate_file_hash c 4096) (lookupA bfs0 rel).isSome = true) ∧
      (rel ∈ stf.skippedList ↔
        needsCopy (lookupA M rel) (calculate_file_hash c 4096) (lookupA bfs0 rel).isSome = false) ∧
      (needsCopy (lookupA M rel) (calculate_file_hash c 4096) (lookupA bfs0 rel).isSome = true →
        lookupA stf.updated rel = some ⟨calculate_file_hash c 4096, now, broot ++ rel⟩) ∧
      (needsCopy (lookupA M rel) (calculate_file_hash c 4096) (lookupA bfs0 rel).isSome = false →
        lookupA stf.updated rel = lookupA M rel) ∧
      (lookupA stf.backupFS rel).isSome = true := by
  obtain ⟨l1, l2, rfl⟩ := List.append_of_mem hmem
  have hkeys : keysOf (l1 ++ (rel, Except.ok c) :: l2) = keysOf l1 ++ rel :: keysOf l2 := by
    simp [keysOf]
  rw [hkeys] at hnd
  obtain ⟨hn1, hn2, hdisj⟩ := List.nodup_append.mp hnd
  have h1 : rel ∉ keysOf l1 := fun hrel => hdisj hrel (by simp)
  have h2 : rel ∉ keysOf l2 := (List.nodup_cons.mp hn2).1
  have hok1 : ∀ f ∈ l1, isReadable f.2 = true := fun f hf => hok f (by simp [hf])
  have hok2 : ∀ f ∈ l2, isReadable f.2 = true := fun f hf => hok f (by simp [hf])
  obtain ⟨stA, hA⟩ := runLoop_ok M broot now l1 ⟨M, bfs0, 0, 0, [], [], []⟩ hok1
  have hagA : AgreesAt rel ⟨M, bfs0, 0, 0, [], [], []⟩ stA := by
    have := runLoop_agreesAt M broot now l1 ⟨M, bfs0, 0, 0, [], [], []⟩ rel h1
    rw [hA] at this
    exact this
  have hlookB : lookupA stA.backupFS rel = lookupA bfs0 rel := hagA.2.1.symm
  have hlookU : lookupA stA.updated rel = lookupA M rel := hagA.1.symm
  have hcopyA : rel ∉ stA.copied := fun hc => by simpa using hagA.2.2.1.mpr hc
  have hskipA : rel ∉ stA.skippedList := fun hc => by simpa using hagA.2.2.2.mpr hc
  rcases hcond : needsCopy (lookupA M rel) (calculate_file_hash c 4096)
      (lookupA bfs0 rel).isSome with _ | _
  · -- skip
    have hcond2 : needsCopy (lookupA M rel) (calculate_file_hash c 4096)
        (lookupA stA.backupFS rel).isSome = false := by rw [hlookB]; exact hcond
    have hstep := stepFile_skip M broot now stA rel c hname hcond2
    obtain ⟨stF, hF⟩ := runLoop_ok M broot now l2
      { stA with
        skipped_files := stA.skipped_files + 1,
        skippedList := stA.skippedList ++ [rel],
        hashed := stA.hashed ++ [rel] } hok2
    have hagB : AgreesAt rel
        { stA with
          skipped_files := stA.skipped_files + 1,
          skippedList := stA.skippedList ++ [rel],
          hashed := stA.hashed ++ [rel] } stF := by
      have := runLoop_agreesAt M broot now l2
        { stA with
          skipped_files := stA.skipped_files + 1,
          skippedList := stA.skippedList ++ [rel],
          hashed := stA.hashed ++ [rel] } rel h2
      rw [hF] at this
      exact this
    refine ⟨stF, ?_, ?_, ?_, ?_, ?_, ?_⟩
    · rw [runBackup, runLoop_append_ok M broot now l1 _ _ stA hA, runLoop_cons, hstep]
      exact hF
    · constructor
      · intro hc
        exact absurd (hagB.2.2.1.mpr hc) hcopyA
      · intro hc
        simp at hc
    · constructor
      · intro _; rfl
      · intro _
        exact hagB.2.2.2.mp (by simp)
    · intro hc
      simp [hcond] at hc
    · intro _
      rw [← hagB.1]
      exact hlookU
    · rw [← hagB.2.1]
      show (lookupA stA.backupFS rel).isSome = true
      rw [hlookB]
      obtain ⟨e, _, _, hb⟩ := (needsCopy_eq_false_iff _ _ _).mp hcond
      exact hb
  · -- copy
    have hcond2 : needsCopy (lookupA M rel) (calculate_file_hash c 4096)
        (lookupA stA.backupFS rel).isSome = true := by rw [hlookB]; exact hcond
    have hstep := stepFile_copy M broot now stA rel c hname hcond2
    obtain ⟨stF, hF⟩ := runLoop_ok M broot now l2
      { updated := insertA stA.updated rel
          ⟨calculate_file_hash c 4096, now, broot ++ rel⟩,
        backupFS := insertA stA.backupFS rel c,
        backed_up_files := stA.backed_up_files + 1,
        skipped_files := stA.skipped_files,
        copied := stA.copied ++ [rel],
        skippedList := stA.skippedList,
        hashed := stA.hashed ++ [rel] } hok2
    have hagB : AgreesAt rel
        { updated := insertA stA.updated rel
            ⟨calculate_file_hash c 4096, now, broot ++ rel⟩,
          backupFS := insertA stA.backupFS rel c,
          backed_up_files := stA.backed_up_files + 1,
          skipped_files := stA.skipped_files,
          copied := stA.copied ++ [rel],
          skippedList := stA.skippedList,
          hashed := stA.hashed ++ [rel] } stF := by
      have := runLoop_agreesAt M broot now l2
        { updated := insertA stA.updated rel
            ⟨calculate_file_hash c 4096, now, broot ++ rel⟩,
          backupFS := insertA stA.backupFS rel c,
          backed_up_files := stA.backed_up_files + 1,
          skipped_files := stA.skipped_files,
          copied := stA.copied ++ [rel],
          skippedList := stA.skippedList,
          hashed := stA.hashed ++ [rel] } rel h2
      rw [hF] at this
      exact this
    refine ⟨stF, ?_, ?_, ?_, ?_, ?_, ?_⟩
    · rw [runBackup, runLoop_append_ok M broot now l1 _ _ stA hA, runLoop_cons, hstep]
      exact hF
    · constructor
      · intro _; rfl
      · intro _
        exact hagB.2.2.1.mp (by simp)
    · constructor
      · intro hc
        exact absurd (hagB.2.2.2.mpr hc) hskipA
      · intro hc
        simp at hc
    · intro _
      rw [← hagB.1]
      exact lookupA_insertA_self stA.updated rel _
    · intro hc
      simp [hcond] at hc
    · rw [← hagB.2.1]
      show (lookupA (insertA stA.backupFS rel c) rel).isSome = true
      rw [lookupA_insertA_self]
      rfl

/-! ## Verifier loop characterization -/

theorem verifyLoop_spec (bfs : List (RelPath × List Nat)) :
    ∀ (l : List (RelPath × ManifestEntry)) (k : RelPath),
      (k ∈ (verifyLoop bfs l).1 ↔ ∃ e, (k, e) ∈ l ∧ lookupA bfs k = none) ∧
      (k ∈ (verifyLoop bfs l).2 ↔
        ∃ e c, (k, e) ∈ l ∧ lookupA bfs k = some c ∧ calculate_file_hash c 4096 ≠ e.hash) := by
  intro l
  induction l with
  | nil => intro k; simp [verifyLoop]
  | cons p rest ih =>
    intro k
    obtain ⟨rel, meta⟩ := p
    cases hb : lookupA bfs rel with
    | none =>
      have hshape : verifyLoop bfs ((rel, meta) :: rest) =
          (rel :: (verifyLoop bfs rest).1, (verifyLoop bfs rest).2) := by
        rw [verifyLoop, hb]
      rw [hshape]
      constructor
      · constructor
        · intro hk
          rcases List.mem_cons.mp hk with hk | hk
          · exact ⟨meta, by simp [hk], by rw [hk, hb]⟩
          · obtain ⟨e, hmem, hl⟩ := ((ih k).1).mp hk
            exact ⟨e, by simp [hmem], hl⟩
        · rintro ⟨e, hmem, hl⟩
          rcases List.mem_cons.mp hmem with he | he
          · have : k = rel := by
              injection he with h1 h2
            simp [this]
          · exact List.mem_cons_of_mem rel (((ih k).1).mpr ⟨e, he, hl⟩)
      · constructor
        · intro hk
          obtain ⟨e, c, hmem, hl, hh⟩ := ((ih k).2).mp hk
          exact ⟨e, c, by simp [hmem], hl, hh⟩
        · rintro ⟨e, c, hmem, hl, hh⟩
          rcases List.mem_cons.mp hmem with he | he
          · have hkr : k = rel := by injection he with h1 h2
            rw [hkr, hb] at hl
            exact absurd hl (by simp)
          · exact ((ih k).2).mpr ⟨e, c, he, hl, hh⟩
    | some content =>
      by_cases hh : calculate_file_hash content 4096 ≠ meta.hash
      · have hshape0 : verifyLoop bfs ((rel, meta) :: rest) =
            if calculate_file_hash content 4096 ≠ meta.hash then
              ((verifyLoop bfs rest).1, rel :: (verifyLoop bfs rest).2)
            else verifyLoop bfs rest := by
          rw [verifyLoop, hb]
        have hshape : verifyLoop bfs ((rel, meta) :: rest) =
            ((verifyLoop bfs rest).1, rel :: (verifyLoop bfs rest).2) := by
          rw [hshape0, if_pos hh]
        rw [hshape]
        constructor
        · constructor
          · intro hk
            obtain ⟨e, hmem, hl⟩ := ((ih k).1).mp hk
            exact ⟨e, by simp [hmem], hl⟩
          · rintro ⟨e, hmem, hl⟩
            rcases List.mem_cons.mp hmem with he | he
            · have hkr : k = rel := by injection he with h1 h2
              rw [hkr, hb] at hl
              exact absurd hl (by simp)
            · exact ((ih k).1).mpr ⟨e, he, hl⟩
        · constructor
          · intro hk
            rcases List.mem_cons.mp hk with hk | hk
            · exact ⟨meta, content, by simp [hk], by rw [hk, hb], hh⟩
            · obtain ⟨e, c, hmem, hl, hne⟩ := ((ih k).2).mp hk
              exact ⟨e, c, by simp [hmem], hl, hne⟩
          · rintro ⟨e, c, hmem, hl, hne⟩
            rcases List.mem_cons.mp hmem with he | he
            · have hkr : k = rel := by injection he with h1 h2
              simp [hkr]
            · exact List.mem_cons_of_mem rel (((ih k).2).mpr ⟨e, c, he, hl, hne⟩)
      · have hshape0 : verifyLoop bfs ((rel, meta) :: rest) =
            if calculate_file_hash content 4096 ≠ meta.hash then
              ((verifyLoop bfs rest).1, rel :: (verifyLoop bfs rest).2)
            else verifyLoop bfs rest := by
          rw [verifyLoop, hb]
        have hshape : verifyLoop bfs ((rel, meta) :: rest) = verifyLoop bfs rest := by
          rw [hshape0, if_neg hh]
        rw [hshape]
        push_neg at hh
        constructor
        · constructor
          · intro hk
            obtain ⟨e, hmem, hl⟩ := ((ih k).1).mp hk
            exact ⟨e, by simp [hmem], hl⟩
          · rintro ⟨e, hmem, hl⟩
            rcases List.mem_cons.mp hmem with he | he
            · have hkr : k = rel := by injection he with h1 h2
              rw [hkr, hb] at hl
              exact absurd hl (by simp)
            · exact ((ih k).1).mpr ⟨e, he, hl⟩
        · constructor
          · intro hk
            obtain ⟨e, c, hmem, hl, hne⟩ := ((ih k).2).mp hk
            exact ⟨e, c, by simp [hmem], hl, hne⟩
          · rintro ⟨e, c, hmem, hl, hne⟩
            rcases List.mem_cons.mp hmem with he | he
            · have hkr : k = rel := by injection he with h1 h2
              have hke : e = meta := by injection he with h1 h2
              rw [hkr, hb] at hl
              have hc : c = content := by
                injection hl with h1
                exact h1.symm
              rw [hc, hke] at hne
              exact absurd hh hne
            · exact ((ih k).2).mpr ⟨e, c, he, hl, hne⟩

/-! ## The manifest-frame invariant of the backup loop -/

theorem runLoop_frame_manifest (M : Manifest) (broot : List String) (now : String)
    (l : List (RelPath × SrcFile)) :
    ∀ st, (∀ k, k ∉ st.copied → lookupA st.updated k = lookupA M k) →
      (∀ k, lookupA st.updated k = none → lookupA M k = none) →
      (∀ k, k ∉ (stateOf (runLoop M broot now st l)).copied →
        lookupA (stateOf (runLoop M broot now st l)).updated k = lookupA M k) ∧
      (∀ k, lookupA (stateOf (runLoop M broot now st l)).updated k = none →
        lookupA M k = none) := by
  induction l with
  | nil => exact fun st h1 h2 => ⟨h1, h2⟩
  | cons f rest ih =>
    intro st h1 h2
    have hstep : (∀ k, k ∉ (stateOf (stepFile M broot now st f)).copied →
        lookupA (stateOf (stepFile M broot now st f)).updated k = lookupA M k) ∧
        (∀ k, lookupA (stateOf (stepFile M broot now st f)).updated k = none →
          lookupA M k = none) := by
      by_cases hname : f.1.getLastD "" = MANIFEST_FILE_NAME
      · rw [stepFile_manifest_name M broot now st f hname]
        exact ⟨h1, h2⟩
      · obtain ⟨f1, f2⟩ := f
        cases f2 with
        | error e =>
          rw [stepFile_error M broot now st f1 e hname]
          exact ⟨h1, h2⟩
        | ok c =>
          rcases hb : needsCopy (lookupA M f1) (calculate_file_hash c 4096)
            (lookupA st.backupFS f1).isSome with _ | _
          · rw [stepFile_skip M broot now st f1 c hname hb]
            exact ⟨h1, h2⟩
          · rw [stepFile_copy M broot now st f1 c hname hb]
            simp only [stateOf]
            constructor
            · intro k hk
              simp only [List.mem_append, List.mem_singleton, not_or] at hk
              rw [lookupA_insertA_ne st.updated f1 k _ hk.2]
              exact h1 k hk.1
            · intro k hk
              by_cases hkf : k = f1
              · rw [hkf, lookupA_insertA_self] at hk
                exact absurd hk (by simp)
              · rw [lookupA_insertA_ne st.updated f1 k _ hkf] at hk
                exact h2 k hk
    rw [runLoop_cons]
    cases hres : stepFile M broot now st f with
    | ok st2 =>
      rw [hres] at hstep
      simp only [stateOf] at hstep
      exact ih st2 hstep.1 hstep.2
    | ioErr st2 =>
      rw [hres] at hstep
      exact hstep

/-! ## The all-skip run (second, unchanged run) -/

theorem runLoop_all_skip (M : Manifest) (broot : List String) (now : String)
    (bfs : List (RelPath × List Nat)) (l : List (RelPath × SrcFile))
    (hyp : ∀ f ∈ l, f.1.getLastD "" = MANIFEST_FILE_NAME ∨
      ∃ c e, f.2 = Except.ok c ∧ lookupA M f.1 = some e ∧
        e.hash = calculate_file_hash c 4096 ∧ (lookupA bfs f.1).isSome = true) :
    ∀ st, st.backupFS = bfs →
      ∃ st2, runLoop M broot now st l = .ok st2 ∧
        st2.backupFS = bfs ∧ st2.updated = st.updated ∧
        st2.backed_up_files = st.backed_up_files ∧ st2.copied = st.copied ∧
        st2.skipped_files = st.skipped_files +
          l.countP (fun f => f.1.getLastD "" != MANIFEST_FILE_NAME) := by
  induction l with
  | nil =>
    intro st hst
    exact ⟨st, rfl, hst, rfl, rfl, rfl, by simp⟩
  | cons f rest ih =>
    intro st hst
    have hyprest : ∀ g ∈ rest, g.1.getLastD "" = MANIFEST_FILE_NAME ∨
        ∃ c e, g.2 = Except.ok c ∧ lookupA M g.1 = some e ∧
          e.hash = calculate_file_hash c 4096 ∧ (lookupA bfs g.1).isSome = true :=
      fun g hg => hyp g (List.mem_cons_of_mem f hg)
    by_cases hname : f.1.getLastD "" = MANIFEST_FILE_NAME
    · obtain ⟨st2, h1, h2, h3, h4, h5, h6⟩ := ih hyprest st hst
      refine ⟨st2, ?_, h2, h3, h4, h5, ?_⟩
      · rw [runLoop_cons, stepFile_manifest_name M broot now st f hname]
        exact h1
      · have hp : (f.1.getLastD "" != MANIFEST_FILE_NAME) = false := by
          simp only [bne_eq_false_iff_eq]
          exact hname
        rw [h6, List.countP_cons, hp]
        have hzero : (if (false : Bool) then (1 : Nat) else 0) = 0 := rfl
        rw [hzero]
        omega
    · rcases hyp f (by simp) with h | ⟨c, e, hfc, hle, hhash, hbs⟩
      · exact absurd h hname
      · obtain ⟨f1, f2⟩ := f
        simp only at hfc
        subst hfc
        have hcond : needsCopy (lookupA M f1) (calculate_file_hash c 4096)
            (lookupA st.backupFS f1).isSome = false := by
          rw [needsCopy_eq_false_iff]
          exact ⟨e, hle, hhash, by rw [hst]; exact hbs⟩
        have hstep := stepFile_skip M broot now st f1 c hname hcond
        obtain ⟨st2, h1, h2, h3, h4, h5, h6⟩ := ih hyprest
          { st with
            skipped_files := st.skipped_files + 1,
            skippedList := st.skippedList ++ [f1],
            hashed := st.hashed ++ [f1] } hst
        refine ⟨st2, ?_, h2, h3, h4, h5, ?_⟩
        · rw [runLoop_cons, hstep]
          exact h1
        · have hp : (f1.getLastD "" != MANIFEST_FILE_NAME) = true := bne_iff_ne.mpr hname
          have hs : ({ st with
              skipped_files := st.skipped_files + 1,
              skippedList := st.skippedList ++ [f1],
              hashed := st.hashed ++ [f1] } : BackupState).skipped_files =
            st.skipped_files + 1 := rfl
          rw [h6, hs, List.countP_cons, hp]
          have hone : (if (true : Bool) then (1 : Nat) else 0) = 1 := rfl
          rw [hone]
          omega

/-! ## Outcome of a completed / aborted run -/

theorem scan_and_backup_ok (loads : String → Option Manifest) (dumps : Manifest → String)
    (src : List (RelPath × SrcFile)) (broot : List String)
    (bfs0 : List (RelPath × List Nat)) (mfile : Option String) (now : String)
    (st : BackupState)
    (h : runBackup (load_manifest mfile loads).1 broot now bfs0 src = .ok st) :
    scan_and_backup loads dumps src broot bfs0 mfile now =
      ⟨some (dumps st.updated), st.backupFS, st.updated, st.backed_up_files,
       st.skipped_files, st.copied, st.skippedList, st.hashed, false⟩ := by
  simp only [scan_and_backup]
  rw [h]
  rfl

theorem scan_and_backup_ioErr (loads : String → Option Manifest) (dumps : Manifest → String)
    (src : List (RelPath × SrcFile)) (broot : List String)
    (bfs0 : List (RelPath × List Nat)) (mfile : Option String) (now : String)
    (st : BackupState)
    (h : runBackup (load_manifest mfile loads).1 broot now bfs0 src = .ioErr st) :
    scan_and_backup loads dumps src broot bfs0 mfile now =
      ⟨mfile, st.backupFS, st.updated, st.backed_up_files,
       st.skipped_files, st.copied, st.skippedList, st.hashed, true⟩ := by
  simp only [scan_and_backup]
  rw [h]

/-! ## The claims -/

/-- C2: for every path argument and file content, `load_manifest` returns
the empty mapping when the manifest file does not exist, when its stripped
content is empty, or when it fails to parse (warning emitted exactly in the
unparseable case); the function is total, so a missing or unparseable
manifest never raises. -/
theorem c2_load_manifest_degrades (mfile : Option String)
    (loads : String → Option Manifest) :
    (mfile = none → load_manifest mfile loads = ([], false)) ∧
    (∀ s, mfile = some s → strip s = "" → load_manifest mfile loads = ([], false)) ∧
    (∀ s, mfile = some s → strip s ≠ "" → loads s = none →
      load_manifest mfile loads = ([], true)) := by
  refine ⟨?_, ?_, ?_⟩
  · intro h
    subst h
    rfl
  · intro s h he
    subst h
    show (if strip s = "" then (([], false) : Manifest × Bool) else _) = ([], false)
    rw [if_pos he]
  · intro s h he hl
    subst h
    show (if strip s = "" then (([], false) : Manifest × Bool) else
      match loads s with
      | none => ([], true)
      | some m => (m, false)) = ([], true)
    rw [if_neg he, hl]

theorem c2_witness :
    load_manifest none (fun _ => none) = ([], false) ∧
    load_manifest (some "  ") (fun _ => none) = ([], false) ∧
    load_manifest (some "not json") (fun _ => none) = ([], true) :=
  ⟨(c2_load_manifest_degrades none (fun _ => none)).1 rfl,
   (c2_load_manifest_degrades (some "  ") (fun _ => none)).2.1 "  " rfl (by decide),
   (c2_load_manifest_degrades (some "not json") (fun _ => none)).2.2 "not json" rfl (by decide) rfl⟩

/-- C5: for every file content and positive chunk size, the chunked
streaming fingerprint of `calculate_file_hash` equals the SHA-256 digest of
the whole content as a 64-character hex string; in particular the result is
independent of the chunking and deterministic in the byte content. -/
theorem c5_fingerprint_chunk_free (data : List Nat) (chunkSize : Nat)
    (h : 0 < chunkSize) :
    calculate_file_hash data chunkSize = sha256hex data ∧
    (calculate_file_hash data chunkSize).length = 64 := by
  have he := calculate_file_hash_eq_sha256hex data chunkSize h
  exact ⟨he, by rw [he, sha256hex_length]⟩

theorem c5_witness :
    0 < 3 ∧ (calculate_file_hash [97, 98, 99] 3 = sha256hex [97, 98, 99] ∧
      (calculate_file_hash [97, 98, 99] 3).length = 64) :=
  ⟨by decide, c5_fingerprint_chunk_free [97, 98, 99] 3 (by decide)⟩

/-- C6: for every well-formed manifest, loading a saved manifest yields the
manifest back, provided the external serializer pair round-trips on it (the
spec's `StructuredStore` contract) and its output is not blank; the store
itself adds no transformation in either direction. -/
theorem c6_save_load_round_trip (M : Manifest) (loads : String → Option Manifest)
    (dumps : Manifest → String)
    (hinv : loads (dumps M) = some M)
    (hne : strip (dumps M) ≠ "") :
    (load_manifest (save_manifest dumps M) loads).1 = M := by
  have h1 : load_manifest (save_manifest dumps M) loads =
      if strip (dumps M) = "" then ([], false) else
        match loads (dumps M) with
        | none => ([], true)
        | some m => (m, false) := rfl
  rw [h1, if_neg hne, hinv]

theorem c6_witness :
    (load_manifest
      (save_manifest (fun _ => "x") [(["a.txt"], ⟨"h", "t", ["bak", "a.txt"]⟩)])
      (fun _ => some [(["a.txt"], ⟨"h", "t", ["bak", "a.txt"]⟩)])).1 =
      [(["a.txt"], ⟨"h", "t", ["bak", "a.txt"]⟩)] :=
  c6_save_load_round_trip [(["a.txt"], ⟨"h", "t", ["bak", "a.txt"]⟩)]
    (fun _ => some [(["a.txt"], ⟨"h", "t", ["bak", "a.txt"]⟩)]) (fun _ => "x")
    rfl (by decide)

/-- C8: verify is a pure read: its report is a function of the manifest
file and the backup tree only, so any two source trees produce identical
reports (the `source_dir` parameter is dead in the walk); the embedding's
result type shows it writes nothing. -/
theorem c8_verify_source_independent (src1 src2 : List (RelPath × SrcFile))
    (bfs : List (RelPath × List Nat)) (mfile : Option String)
    (loads : String → Option Manifest) :
    verify_backup_integrity src1 bfs mfile loads =
      verify_backup_integrity src2 bfs mfile loads := rfl

/-- C9: if fingerprinting any (non-reserved-named) file raises an I/O
error, the exception propagates, the run halts, and the manifest file keeps
its prior content: `save_manifest` is never reached, even though copies
made earlier in the run remain in the backup tree. -/
theorem c9_io_error_preserves_manifest (loads : String → Option Manifest)
    (dumps : Manifest → String) (src : List (RelPath × SrcFile))
    (broot : List String) (bfs0 : List (RelPath × List Nat))
    (mfile : Option String) (now : String) (rel : RelPath)
    (hmem : (rel, (Except.error () : SrcFile)) ∈ src)
    (hname : rel.getLastD "" ≠ MANIFEST_FILE_NAME) :
    (scan_and_backup loads dumps src broot bfs0 mfile now).raised = true ∧
    (scan_and_backup loads dumps src broot bfs0 mfile now).mfileOut = mfile := by
  obtain ⟨st2, h⟩ := runLoop_ioErr (load_manifest mfile loads).1 broot now src
    ⟨(load_manifest mfile loads).1, bfs0, 0, 0, [], [], []⟩
    ⟨(rel, .error ()), hmem, rfl, hname⟩
  have h2 : runBackup (load_manifest mfile loads).1 broot now bfs0 src = .ioErr st2 := h
  rw [scan_and_backup_ioErr loads dumps src broot bfs0 mfile now st2 h2]
  exact ⟨rfl, rfl⟩

theorem c9_witness :
    (scan_and_backup (fun _ => none) (fun _ => "x")
      [(["a"], Except.error ())] ["b"] [] (some "PRIOR") "t").raised = true ∧
    (scan_and_backup (fun _ => none) (fun _ => "x")
      [(["a"], Except.error ())] ["b"] [] (some "PRIOR") "t").mfileOut = some "PRIOR" :=
  c9_io_error_preserves_manifest (fun _ => none) (fun _ => "x")
    [(["a"], Except.error ())] ["b"] [] (some "PRIOR") "t" ["a"]
    (by simp) (by decide)

/-- C10: the per-file skip compares the base name to the fixed constant
`MANIFEST_FILE_NAME = "manifest.json"` (the manifest path in use is not
consulted): a source file named exactly `manifest.json` leaves the loop
state untouched — never fingerprinted, copied or counted — while a
readable file of any other name is fingerprinted exactly once and counted
exactly once. -/
theorem c10_reserved_name_constant (manifest : Manifest) (broot : List String)
    (now : String) (st : BackupState) (rel : RelPath) (d : SrcFile) :
    MANIFEST_FILE_NAME = "manifest.json" ∧
    (rel.getLastD "" = "manifest.json" →
      stepFile manifest broot now st (rel, d) = .ok st) ∧
    (rel.getLastD "" ≠ "manifest.json" → ∀ c, d = Except.ok c →
      ∃ st2, stepFile manifest broot now st (rel, d) = .ok st2 ∧
        st2.hashed = st.hashed ++ [rel] ∧
        st2.backed_up_files + st2.skipped_files =
          st.backed_up_files + st.skipped_files + 1) := by
  refine ⟨rfl, ?_, ?_⟩
  · intro h
    exact stepFile_manifest_name manifest broot now st (rel, d) h
  · intro h c hd
    subst hd
    rcases hb : needsCopy (lookupA manifest rel) (calculate_file_hash c 4096)
        (lookupA st.backupFS rel).isSome with _ | _
    · rw [stepFile_skip manifest broot now st rel c h hb]
      exact ⟨_, rfl, rfl, rfl⟩
    · rw [stepFile_copy manifest broot now st rel c h hb]
      refine ⟨_, rfl, rfl, ?_⟩
      show st.backed_up_files + 1 + st.skipped_files =
        st.backed_up_files + st.skipped_files + 1
      omega

theorem c10_witness :
    stepFile [] [] "t" ⟨[], [], 0, 0, [], [], []⟩ (["manifest.json"], Except.ok [1]) =
      .ok ⟨[], [], 0, 0, [], [], []⟩ ∧
    ∃ st2, stepFile [] [] "t" ⟨[], [], 0, 0, [], [], []⟩
        (["custom.json"], Except.ok [1]) = .ok st2 ∧
      st2.hashed = ([] : List RelPath) ++ [["custom.json"]] ∧
      st2.backed_up_files + st2.skipped_files = 0 + 0 + 1 :=
  ⟨(c10_reserved_name_constant [] [] "t" ⟨[], [], 0, 0, [], [], []⟩
      ["manifest.json"] (Except.ok [1])).2.1 (by decide),
   (c10_reserved_name_constant [] [] "t" ⟨[], [], 0, 0, [], [], []⟩
      ["custom.json"] (Except.ok [1])).2.2 (by decide) [1] rfl⟩

/-- C1: during a backup run, a readable source file at relative path `rel`
(not named like the manifest) is copied if and only if the loaded manifest
has no entry at `rel`, or the recorded hash differs from the file's
fingerprint, or no file exists at `backupRoot/rel`; on copy the updated
manifest maps `rel` to the new hash, the run's `now` timestamp and the
backup path, and the file is counted as backed up, otherwise as skipped —
each file in exactly one bucket, with the counters equal to the log-list
lengths. -/
theorem c1_copy_decision (M : Manifest) (broot : List String) (now : String)
    (bfs0 : List (RelPath × List Nat)) (src : List (RelPath × SrcFile))
    (rel : RelPath) (c : List Nat)
    (hnd : (keysOf src).Nodup)
    (hok : ∀ f ∈ src, isReadable f.2 = true)
    (hmem : (rel, Except.ok c) ∈ src)
    (hname : rel.getLastD "" ≠ MANIFEST_FILE_NAME) :
    ∃ stf, runBackup M broot now bfs0 src = .ok stf ∧
      (rel ∈ stf.copied ↔
        (lookupA M rel = none ∨
         (∃ e, lookupA M rel = some e ∧ e.hash ≠ calculate_file_hash c 4096) ∨
         lookupA bfs0 rel = none)) ∧
      (rel ∈ stf.copied →
        lookupA stf.updated rel =
          some ⟨calculate_file_hash c 4096, now, broot ++ rel⟩) ∧
      ((rel ∈ stf.copied ∧ rel ∉ stf.skippedList) ∨
       (rel ∈ stf.skippedList ∧ rel ∉ stf.copied)) ∧
      stf.backed_up_files = stf.copied.length ∧
      stf.skipped_files = stf.skippedList.length := by
  obtain ⟨stf, heq, hciff, hsiff, hcup, hsup, hbfs⟩ :=
    runBackup_per_file M broot now bfs0 src rel c hnd hok hmem hname
  have hcounts := runLoop_counts M broot now src ⟨M, bfs0, 0, 0, [], [], []⟩ ⟨rfl, rfl⟩
  have heqL : runLoop M broot now ⟨M, bfs0, 0, 0, [], [], []⟩ src = .ok stf := heq
  rw [heqL] at hcounts
  simp only [stateOf] at hcounts
  have hbn : ((lookupA bfs0 rel).isSome = false) ↔ lookupA bfs0 rel = none := by
    cases lookupA bfs0 rel <;> simp
  refine ⟨stf, heq, ?_, fun hcop => hcup (hciff.mp hcop), ?_, hcounts.1, hcounts.2⟩
  · rw [hciff, needsCopy_eq_true_iff, hbn]
  · rcases hcond : needsCopy (lookupA M rel) (calculate_file_hash c 4096)
        (lookupA bfs0 rel).isSome with _ | _
    · refine Or.inr ⟨hsiff.mpr hcond, fun hc2 => ?_⟩
      have hT := hciff.mp hc2
      rw [hT] at hcond
      exact Bool.noConfusion hcond
    · refine Or.inl ⟨hciff.mpr hcond, fun hc2 => ?_⟩
      have hF := hsiff.mp hc2
      rw [hF] at hcond
      exact Bool.noConfusion hcond

theorem c1_witness :
    ∃ stf, runBackup [] ["b"] "t" [] [(["a.txt"], Except.ok [104])] = .ok stf ∧
      (["a.txt"] ∈ stf.copied ↔
        (lookupA ([] : Manifest) ["a.txt"] = none ∨
         (∃ e, lookupA ([] : Manifest) ["a.txt"] = some e ∧
           e.hash ≠ calculate_file_hash [104] 4096) ∨
         lookupA ([] : List (RelPath × List Nat)) ["a.txt"] = none)) ∧
      (["a.txt"] ∈ stf.copied →
        lookupA stf.updated ["a.txt"] =
          some ⟨calculate_file_hash [104] 4096, "t", ["b"] ++ ["a.txt"]⟩) ∧
      ((["a.txt"] ∈ stf.copied ∧ ["a.txt"] ∉ stf.skippedList) ∨
       (["a.txt"] ∈ stf.skippedList ∧ ["a.txt"] ∉ stf.copied)) ∧
      stf.backed_up_files = stf.copied.length ∧
      stf.skipped_files = stf.skippedList.length :=
  c1_copy_decision [] ["b"] "t" [] [(["a.txt"], Except.ok [104])] ["a.txt"] [104]
    (by decide) (by decide) (by simp) (by decide)

/-- C3: verify classifies each key of the loaded manifest into exactly one
of missing (no backup file), mismatched (backup present, digest differs
from the recorded hash) or intact; the report's total equals the number of
manifest entries, and no key is both missing and mismatched. -/
theorem c3_verify_classification (source : List (RelPath × SrcFile))
    (bfs : List (RelPath × List Nat)) (mfile : Option String)
    (loads : String → Option Manifest) (M : Manifest)
    (hM : (load_manifest mfile loads).1 = M)
    (hnd : (keysOf M).Nodup) :
    (verify_backup_integrity source bfs mfile loads).total_files = M.length ∧
    ∀ kv ∈ M,
      (kv.1 ∈ (verify_backup_integrity source bfs mfile loads).missing_files ↔
        lookupA bfs kv.1 = none) ∧
      (kv.1 ∈ (verify_backup_integrity source bfs mfile loads).mismatches ↔
        ∃ c, lookupA bfs kv.1 = some c ∧ calculate_file_hash c 4096 ≠ kv.2.hash) ∧
      ¬(kv.1 ∈ (verify_backup_integrity source bfs mfile loads).missing_files ∧
        kv.1 ∈ (verify_backup_integrity source bfs mfile loads).mismatches) := by
  have hv : verify_backup_integrity source bfs mfile loads =
      if ((load_manifest mfile loads).1).isEmpty then ⟨0, [], [], true⟩
      else ⟨((load_manifest mfile loads).1).length,
        (verifyLoop bfs (load_manifest mfile loads).1).1,
        (verifyLoop bfs (load_manifest mfile loads).1).2, false⟩ := rfl
  rw [hM] at hv
  by_cases hemp : M.isEmpty
  · rw [hv, if_pos hemp]
    have hMnil : M = [] := List.isEmpty_iff.mp hemp
    subst hMnil
    exact ⟨rfl, by intro kv hkv; simp at hkv⟩
  · rw [hv, if_neg hemp]
    refine ⟨rfl, ?_⟩
    rintro ⟨k0, e0⟩ hkv
    have hspec := verifyLoop_spec bfs M k0
    refine ⟨?_, ?_, ?_⟩
    · constructor
      · intro hk
        exact ((hspec.1).mp hk).choose_spec.2
      · intro hl
        exact (hspec.1).mpr ⟨e0, hkv, hl⟩
    · constructor
      · intro hk
        obtain ⟨e, c, hmeme, hl, hne⟩ := (hspec.2).mp hk
        have hee : e = e0 := mem_unique_of_nodup hmeme hkv hnd
        exact ⟨c, hl, by rw [← hee]; exact hne⟩
      · rintro ⟨c, hl, hne⟩
        exact (hspec.2).mpr ⟨e0, c, hkv, hl, hne⟩
    · rintro ⟨hmiss, hmm⟩
      obtain ⟨e, hmeme, hl⟩ := (hspec.1).mp hmiss
      obtain ⟨e2, c, hmeme2, hl2, _⟩ := (hspec.2).mp hmm
      rw [hl] at hl2
      exact Option.noConfusion hl2

theorem c3_witness :
    (verify_backup_integrity [] [] (some "m")
      (fun _ => some [(["a"], ⟨"h", "t", ["b", "a"]⟩)])).total_files =
      [((["a"] : RelPath), (⟨"h", "t", ["b", "a"]⟩ : ManifestEntry))].length ∧
    ∀ kv ∈ [((["a"] : RelPath), (⟨"h", "t", ["b", "a"]⟩ : ManifestEntry))],
      (kv.1 ∈ (verify_backup_integrity [] [] (some "m")
          (fun _ => some [(["a"], ⟨"h", "t", ["b", "a"]⟩)])).missing_files ↔
        lookupA ([] : List (RelPath × List Nat)) kv.1 = none) ∧
      (kv.1 ∈ (verify_backup_integrity [] [] (some "m")
          (fun _ => some [(["a"], ⟨"h", "t", ["b", "a"]⟩)])).mismatches ↔
        ∃ c, lookupA ([] : List (RelPath × List Nat)) kv.1 = some c ∧
          calculate_file_hash c 4096 ≠ kv.2.hash) ∧
      ¬(kv.1 ∈ (verify_backup_integrity [] [] (some "m")
          (fun _ => some [(["a"], ⟨"h", "t", ["b", "a"]⟩)])).missing_files ∧
        kv.1 ∈ (verify_backup_integrity [] [] (some "m")
          (fun _ => some [(["a"], ⟨"h", "t", ["b", "a"]⟩)])).mismatches) :=
  c3_verify_classification [] [] (some "m")
    (fun _ => some [(["a"], ⟨"h", "t", ["b", "a"]⟩)])
    [(["a"], ⟨"h", "t", ["b", "a"]⟩)] rfl (by decide)

/-- C4: a completed backup run changes the in-memory manifest only at the
paths it copied: every other key — in particular every skipped file's key
and every stale key absent from the source walk — keeps the loaded entry
unchanged (including its recorded last-backup time), and no entry is ever
removed. -/
theorem c4_manifest_frame (M : Manifest) (broot : List String) (now : String)
    (bfs0 : List (RelPath × List Nat)) (src : List (RelPath × SrcFile))
    (hnd : (keysOf src).Nodup)
    (hok : ∀ f ∈ src, isReadable f.2 = true) :
    ∃ stf, runBackup M broot now bfs0 src = .ok stf ∧
      (∀ k, k ∉ stf.copied → lookupA stf.updated k = lookupA M k) ∧
      (∀ k, k ∈ stf.skippedList → lookupA stf.updated k = lookupA M k) ∧
      (∀ k, k ∉ keysOf src → lookupA stf.updated k = lookupA M k) ∧
      (∀ k e, lookupA M k = some e → ∃ e2, lookupA stf.updated k = some e2) := by
  obtain ⟨stf, heq⟩ := runLoop_ok M broot now src ⟨M, bfs0, 0, 0, [], [], []⟩ hok
  have hframe := runLoop_frame_manifest M broot now src ⟨M, bfs0, 0, 0, [], [], []⟩
    (fun k _ => rfl) (fun k h => h)
  rw [heq] at hframe
  simp only [stateOf] at hframe
  have heqR : runBackup M broot now bfs0 src = .ok stf := heq
  refine ⟨stf, heqR, hframe.1, ?_, ?_, ?_⟩
  · intro k hk
    have hlogs := runLoop_mem_logs M broot now src ⟨M, bfs0, 0, 0, [], [], []⟩ k
    rw [heq] at hlogs
    simp only [stateOf] at hlogs
    rcases hlogs.2 hk with hin | ⟨p, hp, hpk, hpn⟩
    · simp at hin
    · obtain ⟨p1, p2⟩ := p
      simp only at hpk hpn
      subst hpk
      have hr := hok (p1, p2) hp
      cases p2 with
      | error e => simp [isReadable] at hr
      | ok c =>
        obtain ⟨stf2, heq2, hciff, hsiff, hcopyupd, hskipupd, hbfs⟩ :=
          runBackup_per_file M broot now bfs0 src p1 c hnd hok hp hpn
        rw [heqR] at heq2
        injection heq2 with hst
        subst hst
        exact hskipupd (hsiff.mp hk)
  · intro k hk
    apply hframe.1
    intro hc
    have hlogs := runLoop_mem_logs M broot now src ⟨M, bfs0, 0, 0, [], [], []⟩ k
    rw [heq] at hlogs
    simp only [stateOf] at hlogs
    rcases hlogs.1 hc with hin | ⟨p, hp, hpk, _⟩
    · simp at hin
    · exact hk (hpk ▸ List.mem_map.mpr ⟨p, hp, rfl⟩)
  · intro k e hke
    cases hu : lookupA stf.updated k with
    | none => exact absurd (hframe.2 k hu) (by simp [hke])
    | some e2 => exact ⟨e2, rfl⟩

theorem c4_witness :
    ∃ stf, runBackup [(["old"], ⟨"h0", "t0", ["b", "old"]⟩)] ["b"] "t" []
        [(["a.txt"], Except.ok [104])] = .ok stf ∧
      (∀ k, k ∉ stf.copied →
        lookupA stf.updated k =
          lookupA ([(["old"], ⟨"h0", "t0", ["b", "old"]⟩)] : Manifest) k) ∧
      (∀ k, k ∈ stf.skippedList →
        lookupA stf.updated k =
          lookupA ([(["old"], ⟨"h0", "t0", ["b", "old"]⟩)] : Manifest) k) ∧
      (∀ k, k ∉ keysOf [(["a.txt"], (Except.ok [104] : SrcFile))] →
        lookupA stf.updated k =
          lookupA ([(["old"], ⟨"h0", "t0", ["b", "old"]⟩)] : Manifest) k) ∧
      (∀ k e, lookupA ([(["old"], ⟨"h0", "t0", ["b", "old"]⟩)] : Manifest) k = some e →
        ∃ e2, lookupA stf.updated k = some e2) :=
  c4_manifest_frame [(["old"], ⟨"h0", "t0", ["b", "old"]⟩)] ["b"] "t" []
    [(["a.txt"], Except.ok [104])] (by decide) (by decide)

/-- C7: running a backup twice in a row over the same readable source
tree, with nothing changed in between and the saved manifest parsing back
to itself (the external serializer round-trip, non-blank output), makes
the second run copy zero files: every walked non-reserved file is
classified as skipped. -/
theorem c7_second_run_idempotent (loads : String → Option Manifest)
    (dumps : Manifest → String) (src : List (RelPath × SrcFile))
    (broot : List String) (bfs0 : List (RelPath × List Nat))
    (mfile : Option String) (now1 now2 : String)
    (hnd : (keysOf src).Nodup)
    (hok : ∀ f ∈ src, isReadable f.2 = true)
    (hload : loads (dumps (scan_and_backup loads dumps src broot bfs0 mfile now1).updated) =
      some (scan_and_backup loads dumps src broot bfs0 mfile now1).updated)
    (hne : strip (dumps (scan_and_backup loads dumps src broot bfs0 mfile now1).updated) ≠ "") :
    (scan_and_backup loads dumps src broot
        (scan_and_backup loads dumps src broot bfs0 mfile now1).backupFS
        (scan_and_backup loads dumps src broot bfs0 mfile now1).mfileOut
        now2).backed_up_files = 0 ∧
    (scan_and_backup loads dumps src broot
        (scan_and_backup loads dumps src broot bfs0 mfile now1).backupFS
        (scan_and_backup loads dumps src broot bfs0 mfile now1).mfileOut
        now2).copied = [] ∧
    (scan_and_backup loads dumps src broot
        (scan_and_backup loads dumps src broot bfs0 mfile now1).backupFS
        (scan_and_backup loads dumps src broot bfs0 mfile now1).mfileOut
        now2).raised = false ∧
    (scan_and_backup loads dumps src broot
        (scan_and_backup loads dumps src broot bfs0 mfile now1).backupFS
        (scan_and_backup loads dumps src broot bfs0 mfile now1).mfileOut
        now2).skipped_files =
      src.countP (fun f => f.1.getLastD "" != MANIFEST_FILE_NAME) := by
  obtain ⟨st1, h1⟩ := runLoop_ok (load_manifest mfile loads).1 broot now1 src
    ⟨(load_manifest mfile loads).1, bfs0, 0, 0, [], [], []⟩ hok
  have h1R : runBackup (load_manifest mfile loads).1 broot now1 bfs0 src = .ok st1 := h1
  have hout1 := scan_and_backup_ok loads dumps src broot bfs0 mfile now1 st1 h1R
  rw [hout1] at hload hne
  dsimp only at hload hne
  have hm2 : (load_manifest (some (dumps st1.updated)) loads).1 = st1.updated := by
    have hl : load_manifest (some (dumps st1.updated)) loads =
        if strip (dumps st1.updated) = "" then ([], false) else
          match loads (dumps st1.updated) with
          | none => ([], true)
          | some m => (m, false) := rfl
    rw [hl, if_neg hne, hload]
  have hyp : ∀ f ∈ src, f.1.getLastD "" = MANIFEST_FILE_NAME ∨
      ∃ c e, f.2 = Except.ok c ∧ lookupA st1.updated f.1 = some e ∧
        e.hash = calculate_file_hash c 4096 ∧
        (lookupA st1.backupFS f.1).isSome = true := by
    intro f hf
    by_cases hname : f.1.getLastD "" = MANIFEST_FILE_NAME
    · exact Or.inl hname
    · right
      obtain ⟨f1, f2⟩ := f
      have hr := hok (f1, f2) hf
      cases f2 with
      | error e => simp [isReadable] at hr
      | ok c =>
        obtain ⟨stf2, heq2, hciff, hsiff, hcopyupd, hskipupd, hbfs⟩ :=
          runBackup_per_file (load_manifest mfile loads).1 broot now1 bfs0 src f1 c
            hnd hok hf hname
        rw [h1R] at heq2
        injection heq2 with hst
        subst hst
        refine ⟨c, ?_⟩
        rcases hcond : needsCopy (lookupA (load_manifest mfile loads).1 f1)
            (calculate_file_hash c 4096) (lookupA bfs0 f1).isSome with _ | _
        · obtain ⟨e, hle, hh, hb⟩ := (needsCopy_eq_false_iff _ _ _).mp hcond
          exact ⟨e, rfl, by rw [hskipupd hcond]; exact hle, hh, hbfs⟩
        · exact ⟨⟨calculate_file_hash c 4096, now1, broot ++ f1⟩, rfl,
            hcopyupd hcond, rfl, hbfs⟩
  obtain ⟨st2, hrun2, hfs2, hupd2, hbk2, hcp2, hsk2⟩ :=
    runLoop_all_skip st1.updated broot now2 st1.backupFS src hyp
      ⟨st1.updated, st1.backupFS, 0, 0, [], [], []⟩ rfl
  have h2R : runBackup (load_manifest (some (dumps st1.updated)) loads).1 broot now2
      st1.backupFS src = .ok st2 := by
    rw [hm2]
    exact hrun2
  have hout2 := scan_and_backup_ok loads dumps src broot st1.backupFS
    (some (dumps st1.updated)) now2 st2 h2R
  rw [hout1]
  dsimp only
  rw [hout2]
  refine ⟨hbk2, hcp2, rfl, ?_⟩
  rw [hsk2]
  exact Nat.zero_add _

theorem c7_witness :
    (scan_and_backup (fun _ => some (scan_and_backup (fun _ => none) (fun _ => "x")
          [(["a.txt"], Except.ok [104])] ["b"] [] none "t1").updated)
        (fun _ => "x") [(["a.txt"], Except.ok [104])] ["b"]
        (scan_and_backup (fun _ => some (scan_and_backup (fun _ => none) (fun _ => "x")
            [(["a.txt"], Except.ok [104])] ["b"] [] none "t1").updated)
          (fun _ => "x") [(["a.txt"], Except.ok [104])] ["b"] [] none "t1").backupFS
        (scan_and_backup (fun _ => some (scan_and_backup (fun _ => none) (fun _ => "x")
            [(["a.txt"], Except.ok [104])] ["b"] [] none "t1").updated)
          (fun _ => "x") [(["a.txt"], Except.ok [104])] ["b"] [] none "t1").mfileOut
        "t2").backed_up_files = 0 ∧
    (scan_and_backup (fun _ => some (scan_and_backup (fun _ => none) (fun _ => "x")
          [(["a.txt"], Except.ok [104])] ["b"] [] none "t1").updated)
        (fun _ => "x") [(["a.txt"], Except.ok [104])] ["b"]
        (scan_and_backup (fun _ => some (scan_and_backup (fun _ => none) (fun _ => "x")
            [(["a.txt"], Except.ok [104])] ["b"] [] none "t1").updated)
          (fun _ => "x") [(["a.txt"], Except.ok [104])] ["b"] [] none "t1").backupFS
        (scan_and_backup (fun _ => some (scan_and_backup (fun _ => none) (fun _ => "x")
            [(["a.txt"], Except.ok [104])] ["b"] [] none "t1").updated)
          (fun _ => "x") [(["a.txt"], Except.ok [104])] ["b"] [] none "t1").mfileOut
        "t2").copied = [] ∧
    (scan_and_backup (fun _ => some (scan_and_backup (fun _ => none) (fun _ => "x")
          [(["a.txt"], Except.ok [104])] ["b"] [] none "t1").updated)
        (fun _ => "x") [(["a.txt"], Except.ok [104])] ["b"]
        (scan_and_backup (fun _ => some (scan_and_backup (fun _ => none) (fun _ => "x")
            [(["a.txt"], Except.ok [104])] ["b"] [] none "t1").updated)
          (fun _ => "x") [(["a.txt"], Except.ok [104])] ["b"] [] none "t1").backupFS
        (scan_and_backup (fun _ => some (scan_and_backup (fun _ => none) (fun _ => "x")
            [(["a.txt"], Except.ok [104])] ["b"] [] none "t1").updated)
          (fun _ => "x") [(["a.txt"], Except.ok [104])] ["b"] [] none "t1").mfileOut
        "t2").raised = false ∧
    (scan_and_backup (fun _ => some (scan_and_backup (fun _ => none) (fun _ => "x")
          [(["a.txt"], Except.ok [104])] ["b"] [] none "t1").updated)
        (fun _ => "x") [(["a.txt"], Except.ok [104])] ["b"]
        (scan_and_backup (fun _ => some (scan_and_backup (fun _ => none) (fun _ => "x")
            [(["a.txt"], Except.ok [104])] ["b"] [] none "t1").updated)
          (fun _ => "x") [(["a.txt"], Except.ok [104])] ["b"] [] none "t1").backupFS
        (scan_and_backup (fun _ => some (scan_and_backup (fun _ => none) (fun _ => "x")
            [(["a.txt"], Except.ok [104])] ["b"] [] none "t1").updated)
          (fun _ => "x") [(["a.txt"], Except.ok [104])] ["b"] [] none "t1").mfileOut
        "t2").skipped_files =
      ([(["a.txt"], (Except.ok [104] : SrcFile))]).countP
        (fun f => f.1.getLastD "" != MANIFEST_FILE_NAME) :=
  c7_second_run_idempotent
    (fun _ => some (scan_and_backup (fun _ => none) (fun _ => "x")
      [(["a.txt"], Except.ok [104])] ["b"] [] none "t1").updated)
    (fun _ => "x") [(["a.txt"], Except.ok [104])] ["b"] [] none "t1" "t2"
    (by decide) (by decide) (by decide) (by decide)

end BackupTool
